import Mathlib

/-!
Shallow embedding of the DistributedFileSystem repository's storage layer:
the per-node chunk store (`StorageNode.cpp`), the gRPC storage service
(`storage_service.cpp`), the network client's chunked upload
(`StorageNode.h`, client class) and the cluster coordinator's write/read
paths (`FileSystemManager.h`).  Machine integers are modelled as `Nat`/`Int`
with explicit reduction modulo `2 ^ 32` where the source relies on 32-bit
wraparound (the MD5 digest); `std::map` is modelled as an association list
whose key list is duplicate-free.
-/

set_option autoImplicit false

namespace DFS

/-! ### Association-list model of `std::map<std::string, V>` -/

def lookupAL {α : Type} : List (String × α) → String → Option α
  | [], _ => none
  | (k, v) :: rest, key => if k = key then some v else lookupAL rest key

def insertAL {α : Type} : List (String × α) → String → α → List (String × α)
  | [], key, val => [(key, val)]
  | (k, v) :: rest, key, val =>
      if k = key then (key, val) :: rest else (k, v) :: insertAL rest key val

def eraseAL {α : Type} : List (String × α) → String → List (String × α)
  | [], _ => []
  | (k, v) :: rest, key => if k = key then rest else (k, v) :: eraseAL rest key

def keysAL {α : Type} (l : List (String × α)) : List String :=
  l.map Prod.fst

/-! ### MD5 digest (`StorageServiceImpl::computeChecksum`)

`computeChecksum` in `storage_service.cpp` calls OpenSSL's `MD5` over the
raw bytes of `data` and renders the 16-byte digest as lowercase hex.  The
algorithm is embedded here directly (RFC 1321): bytes are `Nat < 256`,
32-bit words are `Nat` reduced modulo `2 ^ 32`. -/

def M32 : Nat := 4294967296

def add32 (a b : Nat) : Nat := (a + b) % M32

def not32 (x : Nat) : Nat := 4294967295 - x % M32

def rotl32 (x s : Nat) : Nat :=
  ((x % M32) * 2 ^ s) % M32 ||| (x % M32) / 2 ^ (32 - s)

def md5K : List Nat :=
  [0xd76aa478, 0xe8c7b756, 0x242070db, 0xc1bdceee,
   0xf57c0faf, 0x4787c62a, 0xa8304613, 0xfd469501,
   0x698098d8, 0x8b44f7af, 0xffff5bb1, 0x895cd7be,
   0x6b901122, 0xfd987193, 0xa679438e, 0x49b40821,
   0xf61e2562, 0xc040b340, 0x265e5a51, 0xe9b6c7aa,
   0xd62f105d, 0x02441453, 0xd8a1e681, 0xe7d3fbc8,
   0x21e1cde6, 0xc33707d6, 0xf4d50d87, 0x455a14ed,
   0xa9e3e905, 0xfcefa3f8, 0x676f02d9, 0x8d2a4c8a,
   0xfffa3942, 0x8771f681, 0x6d9d6122, 0xfde5380c,
   0xa4beea44, 0x4bdecfa9, 0xf6bb4b60, 0xbebfbc70,
   0x289b7ec6, 0xeaa127fa, 0xd4ef3085, 0x04881d05,
   0xd9d4d039, 0xe6db99e5, 0x1fa27cf8, 0xc4ac5665,
   0xf4292244, 0x432aff97, 0xab9423a7, 0xfc93a039,
   0x655b59c3, 0x8f0ccc92, 0xffeff47d, 0x85845dd1,
   0x6fa87e4f, 0xfe2ce6e0, 0xa3014314, 0x4e0811a1,
   0xf7537e82, 0xbd3af235, 0x2ad7d2bb, 0xeb86d391]

def md5S : List Nat :=
  [7, 12, 17, 22, 7, 12, 17, 22, 7, 12, 17, 22, 7, 12, 17, 22,
   5, 9, 14, 20, 5, 9, 14, 20, 5, 9, 14, 20, 5, 9, 14, 20,
   4, 11, 16, 23, 4, 11, 16, 23, 4, 11, 16, 23, 4, 11, 16, 23,
   6, 10, 15, 21, 6, 10, 15, 21, 6, 10, 15, 21, 6, 10, 15, 21]

def md5F (i b c d : Nat) : Nat :=
  if i < 16 then (b &&& c) ||| (not32 b &&& d)
  else if i < 32 then (d &&& b) ||| (not32 d &&& c)
  else if i < 48 then b ^^^ c ^^^ d
  else c ^^^ (b ||| not32 d)

def md5G (i : Nat) : Nat :=
  if i < 16 then i
  else if i < 32 then (5 * i + 1) % 16
  else if i < 48 then (3 * i + 5) % 16
  else (7 * i) % 16

def md5Round (m : List Nat) (st : Nat × Nat × Nat × Nat) (i : Nat) :
    Nat × Nat × Nat × Nat :=
  let (a, b, c, d) := st
  let f := add32 (add32 (add32 (md5F i b c d) a) (md5K.getD i 0))
    (m.getD (md5G i) 0)
  (d, add32 b (rotl32 f (md5S.getD i 0)), b, c)

def md5Block (h : Nat × Nat × Nat × Nat) (m : List Nat) :
    Nat × Nat × Nat × Nat :=
  let (a, b, c, d) := (List.range 64).foldl (md5Round m) h
  let (h0, h1, h2, h3) := h
  (add32 h0 a, add32 h1 b, add32 h2 c, add32 h3 d)

def bytesToWordsLE : List Nat → List Nat
  | b0 :: b1 :: b2 :: b3 :: rest =>
      (b0 + 256 * b1 + 65536 * b2 + 16777216 * b3) :: bytesToWordsLE rest
  | _ => []

def md5Pad (msg : List Nat) : List Nat :=
  let len := msg.length
  let zeros := (119 - len % 64) % 64
  let bitLen := (len * 8) % 2 ^ 64
  msg ++ [128] ++ List.replicate zeros 0 ++
    (List.range 8).map (fun i => bitLen / 2 ^ (8 * i) % 256)

def md5Loop : Nat → (Nat × Nat × Nat × Nat) → List Nat → Nat × Nat × Nat × Nat
  | 0, h, _ => h
  | _ + 1, h, [] => h
  | n + 1, h, ws => md5Loop n (md5Block h (ws.take 16)) (ws.drop 16)

def hexDigit (n : Nat) : Char :=
  if n < 10 then Char.ofNat (48 + n) else Char.ofNat (87 + n)

def byteToHex (b : Nat) : String :=
  String.mk [hexDigit (b / 16 % 16), hexDigit (b % 16)]

def wordToHexLE (w : Nat) : String :=
  byteToHex (w % 256) ++ byteToHex (w / 256 % 256) ++
    byteToHex (w / 65536 % 256) ++ byteToHex (w / 16777216 % 256)

def md5Digest (data : List Nat) : Nat × Nat × Nat × Nat :=
  let ws := bytesToWordsLE (md5Pad data)
  md5Loop ws.length (0x67452301, 0xefcdab89, 0x98badcfe, 0x10325476) ws

def computeChecksum (data : List Nat) : String :=
  wordToHexLE (md5Digest data).1 ++ wordToHexLE (md5Digest data).2.1 ++
    wordToHexLE (md5Digest data).2.2.1 ++ wordToHexLE (md5Digest data).2.2.2

/-! ### Per-node chunk store (`StorageNode.cpp`, the disk-backed class)

State: `basePath` (constructor argument), the filesystem under it
(`disk` : full path ↦ byte content, the effect of `std::ofstream` writes)
and the in-memory index `fileMap` : filename ↦ full path.  The constructor
starts with an empty `fileMap` and never scans the directory, so
pre-existing files on disk are modelled as an arbitrary initial `disk`. -/

structure NodeState where
  basePath : String
  disk : List (String × List Nat)
  fileMap : List (String × String)
  deriving Repr

namespace StorageNode

/-- `StorageNode::getFullPath`: `basePath + "/" + filename`. -/
def getFullPath (st : NodeState) (filename : String) : String :=
  st.basePath ++ "/" ++ filename

/-- `StorageNode::storeFile`: open `ofstream` on the full path, write the
content, record `fileMap[filename] = fullPath`, return true.  The
I/O-failure branch (stream fails to open) is environment nondeterminism and
is not taken in this model; on the modelled success path the function
always returns true. -/
def storeFile (st : NodeState) (filename : String) (content : List Nat) :
    Bool × NodeState :=
  let fullPath := getFullPath st filename
  (true, { st with disk := insertAL st.disk fullPath content,
                   fileMap := insertAL st.fileMap filename fullPath })

/-- `StorageNode::retrieveFile`: look the filename up in `fileMap`; read the
recorded path if present; every failure path returns the empty string. -/
def retrieveFile (st : NodeState) (filename : String) : List Nat :=
  match lookupAL st.fileMap filename with
  | none => []
  | some fullPath =>
      match lookupAL st.disk fullPath with
      | none => []
      | some content => content

/-- `StorageNode::deleteFile`: look the filename up in `fileMap`; call
`std::filesystem::remove` on the recorded path (true iff the path exists);
only on a successful remove is the `fileMap` entry erased. -/
def deleteFile (st : NodeState) (filename : String) : Bool × NodeState :=
  match lookupAL st.fileMap filename with
  | none => (false, st)
  | some fullPath =>
      match lookupAL st.disk fullPath with
      | none => (false, st)
      | some _ =>
          (true, { st with disk := eraseAL st.disk fullPath,
                           fileMap := eraseAL st.fileMap filename })

/-- `StorageNode::listFiles`: the keys of `fileMap`, in order. -/
def listFiles (st : NodeState) : List String :=
  st.fileMap.map Prod.fst

/-- The constructor's state: empty `fileMap`; the directory contents `d0`
are whatever was already on disk. -/
def initNode (basePath : String) (d0 : List (String × List Nat)) : NodeState :=
  ⟨basePath, d0, []⟩

end StorageNode

/-! ### gRPC storage service (`storage_service.cpp`) -/

inductive StatusCode
  | OK | INVALID_ARGUMENT | DATA_LOSS | NOT_FOUND | INTERNAL
  deriving DecidableEq, Repr

/-- `grpc::Status`: code plus error message (`grpc::Status::OK` carries ""). -/
structure Status where
  code : StatusCode
  message : String
  deriving DecidableEq, Repr

structure StoreChunkRequest where
  filename : String
  chunk_number : Int
  data : List Nat
  checksum : String
  deriving Repr

structure StoreChunkResponse where
  success : Bool
  message : String
  deriving DecidableEq, Repr

structure RetrieveChunkRequest where
  filename : String
  chunk_number : Int
  deriving Repr

structure RetrieveChunkResponse where
  data : List Nat
  checksum : String
  success : Bool
  message : String
  deriving DecidableEq, Repr

structure DeleteFileRequest where
  filename : String
  deriving Repr

structure DeleteFileResponse where
  success : Bool
  message : String
  deriving DecidableEq, Repr

structure StoreChunkResult where
  status : Status
  response : StoreChunkResponse
  state : NodeState
  deriving Repr

structure RetrieveChunkResult where
  status : Status
  response : RetrieveChunkResponse
  deriving Repr

structure DeleteFileResult where
  status : Status
  response : DeleteFileResponse
  state : NodeState
  deriving Repr

namespace StorageServiceImpl

/-- `StorageServiceImpl::validateRequest`: returns the first failing check's
error message, or `none` when the request is valid. -/
def validateRequest (r : StoreChunkRequest) : Option String :=
  if r.filename = "" then some "Filename is required"
  else if r.data = [] then some "Data is required"
  else if r.chunk_number < 0 then some "Chunk number must be non-negative"
  else none

/-- Key derivation as written in `StoreChunk` (lines 38-43): the filename,
suffixed with `".chunk" + chunk_number` when `chunk_number > 0`. -/
def storeChunkKey (filename : String) (n : Int) : String :=
  if n > 0 then filename ++ ".chunk" ++ toString n else filename

/-- Key derivation as written in `RetrieveChunk` (lines 69-73). -/
def retrieveChunkKey (filename : String) (n : Int) : String :=
  if n > 0 then filename ++ ".chunk" ++ toString n else filename

/-- `StorageServiceImpl::StoreChunk`: validation, optional checksum
verification, key derivation, then `StorageNode::storeFile`. -/
def StoreChunk (st : NodeState) (r : StoreChunkRequest) : StoreChunkResult :=
  match validateRequest r with
  | some error => ⟨⟨.INVALID_ARGUMENT, error⟩, ⟨false, error⟩, st⟩
  | none =>
      if r.checksum ≠ "" ∧ computeChecksum r.data ≠ r.checksum then
        ⟨⟨.DATA_LOSS, "Checksum mismatch"⟩,
         ⟨false, "Checksum verification failed"⟩, st⟩
      else
        let filename := storeChunkKey r.filename r.chunk_number
        let (success, st') := StorageNode.storeFile st filename r.data
        ⟨(if success then ⟨.OK, ""⟩
          else ⟨.INTERNAL, "Storage operation failed"⟩),
         ⟨success, if success then "Chunk stored successfully"
                   else "Failed to store chunk"⟩, st'⟩

/-- `StorageServiceImpl::RetrieveChunk`: key derivation, then
`StorageNode::retrieveFile`; an empty result is reported as NotFound; on
success the checksum is freshly computed over the returned bytes.  The
handler does not mutate the node. -/
def RetrieveChunk (st : NodeState) (r : RetrieveChunkRequest) :
    RetrieveChunkResult :=
  if r.filename = "" then
    ⟨⟨.INVALID_ARGUMENT, "Filename is required"⟩, ⟨[], "", false, ""⟩⟩
  else
    let filename := retrieveChunkKey r.filename r.chunk_number
    let data := StorageNode.retrieveFile st filename
    if data = [] then
      ⟨⟨.NOT_FOUND, "Chunk not found"⟩, ⟨[], "", false, "Chunk not found"⟩⟩
    else
      ⟨⟨.OK, ""⟩, ⟨data, computeChecksum data, true,
        "Chunk retrieved successfully"⟩⟩

/-- `StorageServiceImpl::DeleteFile`: deletes the bare key via
`StorageNode::deleteFile`; both outcomes return `grpc::Status::OK`. -/
def DeleteFile (st : NodeState) (r : DeleteFileRequest) : DeleteFileResult :=
  if r.filename = "" then
    ⟨⟨.INVALID_ARGUMENT, "Filename is required"⟩, ⟨false, ""⟩, st⟩
  else
    let (success, st') := StorageNode.deleteFile st r.filename
    ⟨⟨.OK, ""⟩, ⟨success, if success then "File deleted successfully"
                          else "File not found"⟩, st'⟩

end StorageServiceImpl

/-! ### Network client upload (`StorageNode.h`, client class, `storeFile`)

The client splits the byte vector into 64 MiB chunks and drives one
`sendChunk` RPC per chunk.  `sendChunk` is declared in the header but its
body is not in the repository (it is the network); its per-call outcome is
abstracted as `send : Nat → Bool`, indexed by chunk number.  The calls the
loop issues are recorded as a trace of `RpcCall`s; the protocol also has a
`DeleteFile` RPC, so the trace type can express deletions (the loop never
emits one). -/

inductive RpcCall
  | storeChunkCall (filename : String) (chunkNumber : Nat) (data : List Nat)
  | deleteFileCall (filename : String)
  deriving DecidableEq, Repr

namespace ClientNode

def CHUNK_SIZE : Nat := 64 * 1024 * 1024

/-- `chunks = (data.size() + CHUNK_SIZE - 1) / CHUNK_SIZE`. -/
def numChunks (len : Nat) : Nat := (len + CHUNK_SIZE - 1) / CHUNK_SIZE

/-- The bytes of chunk `i`:
`std::vector(data.begin() + chunkStart, data.begin() + chunkStart + chunkSize)`
with `chunkSize = min(CHUNK_SIZE, data.size() - chunkStart)`. -/
def chunkData (data : List Nat) (i : Nat) : List Nat :=
  (data.drop (i * CHUNK_SIZE)).take (min CHUNK_SIZE (data.length - i * CHUNK_SIZE))

/-- The `for (i = 0; i < chunks; i++)` loop body, with `remaining` chunk
iterations left.  On a failed `sendChunk` the loop returns false at once
(`handleNetworkError` only logs). -/
def storeLoop (send : Nat → Bool) (filename : String) (data : List Nat) :
    Nat → Nat → Bool × List RpcCall
  | _, 0 => (true, [])
  | i, remaining + 1 =>
      let call := RpcCall.storeChunkCall filename i (chunkData data i)
      if send i then
        let (ok, calls) := storeLoop send filename data (i + 1) remaining
        (ok, call :: calls)
      else (false, [call])

/-- `StorageNode::storeFile` (client): chunk the data and upload
sequentially from chunk 0. -/
def storeFile (send : Nat → Bool) (filename : String) (data : List Nat) :
    Bool × List RpcCall :=
  storeLoop send filename data 0 (numChunks data.length)

end ClientNode

/-! ### Cluster coordinator (`FileSystemManager.h`, lines 198-251)

`state.nodes` maps nodeId to a `shared_ptr<StorageNode>` (the network
client).  Each node's RPC outcomes are abstracted as response functions.
`writeFile`/`readFile` access `state.nodes[nodeId]` with
`std::map::operator[]`, which default-constructs a null `shared_ptr` when
the id is absent and immediately dereferences it — modelled as `none`
(undefined behaviour / crash); `some v` is a normal return. -/

structure ClientHandle where
  store : String → List Nat → Bool
  retrieve : String → List Nat

structure MgrState where
  nodes : List (String × ClientHandle)
  partitionMap : List String
  replicationFactor : Nat

structure DataPlacement where
  primaryNodes : List String
  replicaNodes : List String
  deriving DecidableEq, Repr

namespace FileSystemManager

/-- Modelled from the spec: `updatePartitionMap` is declared in
`FileSystemManager.h` but its body is not in the repository.  Spec §3:
the partition map is the "ordered sequence of node ids used for
deterministic placement". -/
def updatePartitionMap (nodes : List (String × ClientHandle)) : List String :=
  nodes.map Prod.fst

/-- Modelled from the spec: the "stable hash" of §4.3 used by placement;
any deterministic string hash realises it. -/
def stableHash (s : String) : Nat :=
  s.data.foldl (fun h c => h * 131 + c.toNat) 0

/-- Modelled from the spec: `calculateDataPlacement` is declared in
`FileSystemManager.h` but its body is not in the repository.  Spec §4.3:
deterministically map the filename via a stable hash to a position in
`partitionMap`, selecting that position as primary and the next
`replicationFactor - 1` positions (wrapping) as replicas. -/
def calculateDataPlacement (st : MgrState) (filename : String) :
    DataPlacement :=
  match st.partitionMap with
  | [] => ⟨[], []⟩
  | pm =>
      let n := pm.length
      let pos := stableHash filename % n
      ⟨[pm.getD pos ""],
       (List.range (st.replicationFactor - 1)).map
         (fun i => pm.getD ((pos + 1 + i) % n) "")⟩

/-- `FileSystemManager::writeFile`: placement; empty primary list returns
false; otherwise `state.nodes[primaryNodes[0]]` is dereferenced and its
`storeFile` decides the result.  `ensureReplication`'s outcome (`replOk`,
an abstract network result) is only consulted for the warning log line and
never changes the return value. -/
def writeFile (st : MgrState) (filename : String) (data : List Nat)
    (replOk : Bool) : Option Bool :=
  match (calculateDataPlacement st filename).primaryNodes with
  | [] => some false
  | nid :: _ =>
      match lookupAL st.nodes nid with
      | none => none
      | some node =>
          if node.store filename data then
            let _warning :=
              if replOk then "" else "Warning: Replication incomplete"
            some true
          else some false

/-- One of `readFile`'s two node loops: dereference each placement id in
turn and return the first non-empty `retrieveFile` result; `some []` means
the loop fell through with no data, `none` means a null dereference. -/
def tryNodes (nodes : List (String × ClientHandle)) (filename : String) :
    List String → Option (List Nat)
  | [] => some []
  | nid :: rest =>
      match lookupAL nodes nid with
      | none => none
      | some node =>
          let data := node.retrieve filename
          if data = [] then tryNodes nodes filename rest else some data

/-- `FileSystemManager::readFile`: try the primary nodes in order, then the
replica nodes, returning the first non-empty result, else empty. -/
def readFile (st : MgrState) (filename : String) : Option (List Nat) :=
  match tryNodes st.nodes filename
      (calculateDataPlacement st filename).primaryNodes with
  | none => none
  | some data =>
      if data = [] then
        tryNodes st.nodes filename
          (calculateDataPlacement st filename).replicaNodes
      else some data

end FileSystemManager

/-! ### Operation traces over one `StorageNode` (for the map/disk invariant) -/

inductive NodeOp
  | store (filename : String) (content : List Nat)
  | del (filename : String)
  | retrieve (filename : String)
  | list
  deriving DecidableEq, Repr

namespace StorageNode

/-- The state after one operation: `retrieveFile` and `listFiles` are
`const`-style reads and leave the state unchanged. -/
def applyOp (st : NodeState) : NodeOp → NodeState
  | .store f c => (storeFile st f c).2
  | .del f => (deleteFile st f).2
  | .retrieve _ => st
  | .list => st

def runTrace (st : NodeState) : List NodeOp → NodeState
  | [] => st
  | op :: rest => runTrace (applyOp st op) rest

/-- Tracks, along a trace, whether a given filename is a key of `fileMap`:
a store of it makes it present, a delete of it makes it absent, every
other operation leaves it alone. -/
def keyAfter (f : String) : Bool → List NodeOp → Bool
  | b, [] => b
  | b, .store g _ :: rest => keyAfter f (if g = f then true else b) rest
  | b, .del g :: rest => keyAfter f (if g = f then false else b) rest
  | b, .retrieve _ :: rest => keyAfter f b rest
  | b, .list :: rest => keyAfter f b rest

/-- The `std::map` well-formedness the node maintains: duplicate-free keys,
and every `fileMap` entry records its filename's full path with the path
present on disk. -/
def wf (st : NodeState) : Prop :=
  (st.fileMap.map Prod.fst).Nodup ∧
    ∀ g p, lookupAL st.fileMap g = some p →
      p = getFullPath st g ∧ (lookupAL st.disk p).isSome

end StorageNode

/-! ## Shared lemmas about the association-list map model -/

theorem lookupAL_insertAL_self {α : Type} (l : List (String × α)) (k : String)
    (v : α) : lookupAL (insertAL l k v) k = some v := by
  induction l with
  | nil => simp [insertAL, lookupAL]
  | cons p rest ih =>
      obtain ⟨k', v'⟩ := p
      by_cases h : k' = k <;> simp [insertAL, lookupAL, h, ih]

theorem lookupAL_insertAL_ne {α : Type} (l : List (String × α)) (k k' : String)
    (v : α) (h : k ≠ k') : lookupAL (insertAL l k v) k' = lookupAL l k' := by
  induction l with
  | nil => simp [insertAL, lookupAL, h]
  | cons p rest ih =>
      obtain ⟨k'', v''⟩ := p
      by_cases h2 : k'' = k
      · subst h2; simp [insertAL, lookupAL, h]
      · simp [insertAL, h2, lookupAL]
        by_cases h3 : k'' = k' <;> simp [h3, ih]

theorem insertAL_insertAL_self {α : Type} (l : List (String × α)) (k : String)
    (v w : α) : insertAL (insertAL l k v) k w = insertAL l k w := by
  induction l with
  | nil => simp [insertAL]
  | cons p rest ih =>
      obtain ⟨k', v'⟩ := p
      by_cases h : k' = k <;> simp [insertAL, h, ih]

theorem keysAL_insertAL {α : Type} (l : List (String × α)) (k : String)
    (v : α) : (insertAL l k v).map Prod.fst =
      if k ∈ l.map Prod.fst then l.map Prod.fst else l.map Prod.fst ++ [k] := by
  induction l with
  | nil => simp [insertAL]
  | cons p rest ih =>
      obtain ⟨k', v'⟩ := p
      by_cases h : k' = k
      · subst h; simp [insertAL]
      · simp [insertAL, h, ih]
        by_cases h2 : k ∈ rest.map Prod.fst <;> simp [h2, Ne.symm h]

theorem mem_keys_insertAL {α : Type} (l : List (String × α)) (k f : String)
    (v : α) : f ∈ (insertAL l k v).map Prod.fst ↔
      f = k ∨ f ∈ l.map Prod.fst := by
  rw [keysAL_insertAL]
  by_cases h : k ∈ l.map Prod.fst
  · rw [if_pos h]
    constructor
    · exact Or.inr
    · rintro (he | hf)
      · subst he; exact h
      · exact hf
  · rw [if_neg h]
    constructor
    · intro hm
      rcases List.mem_append.1 hm with hm | hm
      · exact Or.inr hm
      · exact Or.inl (List.mem_singleton.1 hm)
    · rintro (he | hf)
      · subst he
        exact List.mem_append.2 (Or.inr (by simp))
      · exact List.mem_append.2 (Or.inl hf)

theorem nodup_keys_insertAL {α : Type} (l : List (String × α)) (k : String)
    (v : α) (h : (l.map Prod.fst).Nodup) :
    ((insertAL l k v).map Prod.fst).Nodup := by
  rw [keysAL_insertAL]
  by_cases h2 : k ∈ l.map Prod.fst
  · simpa [h2]
  · simpa [h2, List.nodup_append] using h

theorem lookupAL_isSome_iff_mem {α : Type} (l : List (String × α))
    (k : String) : (lookupAL l k).isSome ↔ k ∈ l.map Prod.fst := by
  induction l with
  | nil => simp [lookupAL]
  | cons p rest ih =>
      obtain ⟨k', v'⟩ := p
      by_cases h : k' = k
      · subst h; simp [lookupAL]
      · simp [lookupAL, h, ih, Ne.symm h]

theorem lookupAL_eraseAL_self {α : Type} (l : List (String × α)) (k : String)
    (h : (l.map Prod.fst).Nodup) : lookupAL (eraseAL l k) k = none := by
  induction l with
  | nil => simp [eraseAL, lookupAL]
  | cons p rest ih =>
      obtain ⟨k', v'⟩ := p
      simp only [List.map_cons, List.nodup_cons] at h
      by_cases h2 : k' = k
      · subst h2
        simp only [eraseAL, if_pos rfl]
        cases ho : lookupAL rest k' with
        | none => exact ho
        | some w =>
            exfalso
            exact h.1 ((lookupAL_isSome_iff_mem rest k').1 (by simp [ho]))
      · simp [eraseAL, h2, lookupAL, ih h.2]

theorem lookupAL_eraseAL_ne {α : Type} (l : List (String × α)) (k k' : String)
    (h : k ≠ k') : lookupAL (eraseAL l k) k' = lookupAL l k' := by
  induction l with
  | nil => simp [eraseAL]
  | cons p rest ih =>
      obtain ⟨k'', v''⟩ := p
      by_cases h2 : k'' = k
      · subst h2; simp [eraseAL, lookupAL, h]
      · simp only [eraseAL, if_neg h2, lookupAL]
        by_cases h3 : k'' = k' <;> simp [h3, ih]

theorem mem_keys_eraseAL {α : Type} (l : List (String × α)) (k f : String)
    (h : (l.map Prod.fst).Nodup) :
    f ∈ (eraseAL l k).map Prod.fst ↔ f ∈ l.map Prod.fst ∧ f ≠ k := by
  induction l with
  | nil => simp [eraseAL]
  | cons p rest ih =>
      obtain ⟨k', v'⟩ := p
      simp only [List.map_cons, List.nodup_cons] at h
      by_cases h2 : k' = k
      · subst h2
        simp only [eraseAL, if_pos rfl, List.map_cons, List.mem_cons]
        constructor
        · intro hf
          refine ⟨Or.inr hf, ?_⟩
          intro he; subst he; exact h.1 hf
        · rintro ⟨hf | hf, hne⟩
          · exact absurd hf hne
          · exact hf
      · simp only [eraseAL, if_neg h2, List.map_cons, List.mem_cons, ih h.2]
        constructor
        · rintro (he | ⟨hf, hne⟩)
          · subst he
            exact ⟨Or.inl rfl, fun he2 => h2 he2⟩
          · exact ⟨Or.inr hf, hne⟩
        · rintro ⟨he | hf, hne⟩
          · exact Or.inl he
          · exact Or.inr ⟨hf, hne⟩

theorem nodup_keys_eraseAL {α : Type} (l : List (String × α)) (k : String)
    (h : (l.map Prod.fst).Nodup) : ((eraseAL l k).map Prod.fst).Nodup := by
  induction l with
  | nil => simp [eraseAL]
  | cons p rest ih =>
      obtain ⟨k', v'⟩ := p
      simp only [List.map_cons, List.nodup_cons] at h
      by_cases h2 : k' = k
      · subst h2; simpa [eraseAL] using h.2
      · simp only [eraseAL, if_neg h2, List.map_cons, List.nodup_cons]
        exact ⟨fun hm => h.1 ((mem_keys_eraseAL rest k k' h.2).1 hm).1, ih h.2⟩

/-! ## Lemmas about the checksum's shape -/

theorem byteToHex_length (b : Nat) : (byteToHex b).length = 2 := rfl

theorem wordToHexLE_length (w : Nat) : (wordToHexLE w).length = 8 := by
  simp [wordToHexLE, String.length_append, byteToHex_length]

theorem computeChecksum_length (data : List Nat) :
    (computeChecksum data).length = 32 := by
  simp [computeChecksum, String.length_append, wordToHexLE_length]

/-! ## Service-handler lemmas -/

theorem storeChunk_validate_some (st : NodeState) (r : StoreChunkRequest)
    (m : String) (h : StorageServiceImpl.validateRequest r = some m) :
    StorageServiceImpl.StoreChunk st r =
      ⟨⟨.INVALID_ARGUMENT, m⟩, ⟨false, m⟩, st⟩ := by
  unfold StorageServiceImpl.StoreChunk
  rw [h]

/-! ## The claims -/

/-- C3: `StoreChunk` and `RetrieveChunk` derive the same storage key for
every filename and chunk number: the bare filename when the chunk number
is 0, and `filename ++ ".chunk" ++ n` when it is positive. -/
theorem chunk_key_derivation_agrees (f : String) (n : Int) :
    StorageServiceImpl.storeChunkKey f n =
      StorageServiceImpl.retrieveChunkKey f n ∧
    (n = 0 → StorageServiceImpl.storeChunkKey f n = f) ∧
    (0 < n →
      StorageServiceImpl.storeChunkKey f n = f ++ ".chunk" ++ toString n) := by
  refine ⟨rfl, ?_, ?_⟩
  · intro h
    subst h
    simp [StorageServiceImpl.storeChunkKey]
  · intro h
    simp [StorageServiceImpl.storeChunkKey, h]

/-- C3 witness: at filename `"f"` and chunk number 2 both handlers derive
the suffixed key. -/
theorem chunk_key_derivation_agrees_witness :
    (0 : Int) < 2 ∧
    StorageServiceImpl.storeChunkKey "f" 2 = "f" ++ ".chunk" ++ toString (2 : Int) :=
  ⟨by decide, (chunk_key_derivation_agrees "f" 2).2.2 (by decide)⟩

/-- C8: a `StoreChunk` request with an empty filename, empty data or a
negative chunk number fails with InvalidArgument; the response carries
`success = false` and the validation message naming the offending field,
and the node state is unchanged (nothing is stored). -/
theorem storeChunk_invalid_request (st : NodeState) (r : StoreChunkRequest)
    (h : r.filename = "" ∨ r.data = [] ∨ r.chunk_number < 0) :
    ∃ m, StorageServiceImpl.validateRequest r = some m ∧
      m ∈ ["Filename is required", "Data is required",
           "Chunk number must be non-negative"] ∧
      StorageServiceImpl.StoreChunk st r =
        ⟨⟨.INVALID_ARGUMENT, m⟩, ⟨false, m⟩, st⟩ := by
  have hv : ∃ m, StorageServiceImpl.validateRequest r = some m ∧
      m ∈ ["Filename is required", "Data is required",
           "Chunk number must be non-negative"] := by
    unfold StorageServiceImpl.validateRequest
    by_cases h1 : r.filename = ""
    · exact ⟨"Filename is required", by simp [h1], by simp⟩
    · by_cases h2 : r.data = []
      · exact ⟨"Data is required", by simp [h1, h2], by simp⟩
      · have h3 : r.chunk_number < 0 := by tauto
        exact ⟨"Chunk number must be non-negative", by simp [h1, h2, h3],
          by simp⟩
  obtain ⟨m, hm, hmem⟩ := hv
  exact ⟨m, hm, hmem, storeChunk_validate_some st r m hm⟩

/-- C8 witness: the empty-filename request is rejected with
InvalidArgument and leaves the fresh node untouched. -/
theorem storeChunk_invalid_request_witness :
    ∃ m, StorageServiceImpl.validateRequest ⟨"", 0, [7], ""⟩ = some m ∧
      m ∈ ["Filename is required", "Data is required",
           "Chunk number must be non-negative"] ∧
      StorageServiceImpl.StoreChunk (StorageNode.initNode "data" [])
          ⟨"", 0, [7], ""⟩ =
        ⟨⟨.INVALID_ARGUMENT, m⟩, ⟨false, m⟩, StorageNode.initNode "data" []⟩ :=
  storeChunk_invalid_request (StorageNode.initNode "data" []) ⟨"", 0, [7], ""⟩
    (Or.inl rfl)

/-- C2 counterexample: the request `⟨"", 0, [7], "zz"⟩` supplies a
non-empty checksum that differs from the digest recomputed over its data
(every digest has 32 hex characters, `"zz"` has 2), yet the call fails with
INVALID_ARGUMENT — validation runs before checksum verification — not with
the DataLoss the claim demands for every such request. -/
theorem storeChunk_mismatch_counterexample :
    "zz" ≠ "" ∧ "zz" ≠ computeChecksum [7] ∧
    (StorageServiceImpl.StoreChunk (StorageNode.initNode "data" [])
        ⟨"", 0, [7], "zz"⟩).status.code = .INVALID_ARGUMENT ∧
    StatusCode.INVALID_ARGUMENT ≠ .DATA_LOSS := by
  refine ⟨by decide, ?_, ?_, by decide⟩
  · intro h
    have h2 := congrArg String.length h
    rw [computeChecksum_length] at h2
    exact absurd h2.symm (by decide)
  · rw [storeChunk_validate_some _ _ "Filename is required" (by rfl)]

/-- C2 amended: every `StoreChunk` request that passes request validation
(non-empty filename, non-empty data, chunk number ≥ 0) and supplies a
non-empty checksum differing from the digest recomputed over its data
fails with DataLoss, the response is `success = false`, and the node state
is unchanged, so the chunk is not stored and a later retrieve finds
nothing from this request. -/
theorem storeChunk_checksum_mismatch (st : NodeState) (r : StoreChunkRequest)
    (hv : StorageServiceImpl.validateRequest r = none)
    (hck : r.checksum ≠ "") (hne : computeChecksum r.data ≠ r.checksum) :
    StorageServiceImpl.StoreChunk st r =
      ⟨⟨.DATA_LOSS, "Checksum mismatch"⟩,
       ⟨false, "Checksum verification failed"⟩, st⟩ := by
  unfold StorageServiceImpl.StoreChunk
  rw [hv]
  rw [if_pos ⟨hck, hne⟩]

/-- C2 witness (for the amended claim): a valid request for `"xyz"`'s bytes
with the wrong checksum `"zz"` is rejected with DataLoss and the fresh node
is unchanged. -/
theorem storeChunk_checksum_mismatch_witness :
    StorageServiceImpl.StoreChunk (StorageNode.initNode "data" [])
        ⟨"f", 0, [120, 121, 122], "zz"⟩ =
      ⟨⟨.DATA_LOSS, "Checksum mismatch"⟩,
       ⟨false, "Checksum verification failed"⟩,
       StorageNode.initNode "data" []⟩ :=
  storeChunk_checksum_mismatch (StorageNode.initNode "data" [])
    ⟨"f", 0, [120, 121, 122], "zz"⟩ (by rfl) (by decide)
    (by
      intro h
      have h2 := congrArg String.length h
      rw [computeChecksum_length] at h2
      exact absurd h2.symm (by decide))

/-- C6: for every non-empty filename, `DeleteFile` answers with status OK
in both outcomes (absence is not an error); on a well-formed node the
response's success flag is true exactly when the key existed, a successful
delete removes the key, and for an absent key the response is
`success = false` with the "File not found" message and the state is
unchanged. -/
theorem deleteFile_tolerant (st : NodeState) (f : String)
    (hwf : StorageNode.wf st) (hf : f ≠ "") :
    (StorageServiceImpl.DeleteFile st ⟨f⟩).status = ⟨.OK, ""⟩ ∧
    ((StorageServiceImpl.DeleteFile st ⟨f⟩).response.success = true ↔
      f ∈ st.fileMap.map Prod.fst) ∧
    ((StorageServiceImpl.DeleteFile st ⟨f⟩).response.success = true →
      f ∉ (StorageServiceImpl.DeleteFile st ⟨f⟩).state.fileMap.map Prod.fst) ∧
    (f ∉ st.fileMap.map Prod.fst →
      (StorageServiceImpl.DeleteFile st ⟨f⟩).response =
        ⟨false, "File not found"⟩ ∧
      (StorageServiceImpl.DeleteFile st ⟨f⟩).state = st) := by
  obtain ⟨hnodup, hentry⟩ := hwf
  cases hlk : lookupAL st.fileMap f with
  | none =>
      have hmem : f ∉ st.fileMap.map Prod.fst := by
        rw [← lookupAL_isSome_iff_mem]
        simp [hlk]
      simp [StorageServiceImpl.DeleteFile, hf, StorageNode.deleteFile, hlk,
        hmem]
  | some p =>
      obtain ⟨c, hc⟩ := Option.isSome_iff_exists.1 (hentry f p hlk).2
      have hmem : f ∈ st.fileMap.map Prod.fst := by
        rw [← lookupAL_isSome_iff_mem]
        simp [hlk]
      have hgone : f ∉ (eraseAL st.fileMap f).map Prod.fst := by
        rw [mem_keys_eraseAL _ _ _ hnodup]
        simp
      simp [StorageServiceImpl.DeleteFile, hf, StorageNode.deleteFile, hlk,
        hc, hmem, hgone]

/-- C6 witness (Scenario E): deleting `"missing.txt"` on a node that never
held it reports `success = false` without raising an error and changes
nothing. -/
theorem deleteFile_tolerant_witness :
    (StorageServiceImpl.DeleteFile (StorageNode.initNode "data" [])
        ⟨"missing.txt"⟩).status = ⟨.OK, ""⟩ ∧
    ((StorageServiceImpl.DeleteFile (StorageNode.initNode "data" [])
        ⟨"missing.txt"⟩).response.success = true ↔
      "missing.txt" ∈ (StorageNode.initNode "data" []).fileMap.map Prod.fst) ∧
    ((StorageServiceImpl.DeleteFile (StorageNode.initNode "data" [])
        ⟨"missing.txt"⟩).response.success = true →
      "missing.txt" ∉ (StorageServiceImpl.DeleteFile
        (StorageNode.initNode "data" [])
        ⟨"missing.txt"⟩).state.fileMap.map Prod.fst) ∧
    ("missing.txt" ∉ (StorageNode.initNode "data" []).fileMap.map Prod.fst →
      (StorageServiceImpl.DeleteFile (StorageNode.initNode "data" [])
          ⟨"missing.txt"⟩).response = ⟨false, "File not found"⟩ ∧
      (StorageServiceImpl.DeleteFile (StorageNode.initNode "data" [])
          ⟨"missing.txt"⟩).state = StorageNode.initNode "data" []) :=
  deleteFile_tolerant (StorageNode.initNode "data" []) "missing.txt"
    ⟨by simp [StorageNode.initNode],
     fun g p h => by simp [StorageNode.initNode, lookupAL] at h⟩
    (by decide)

theorem count_keys_insertAL {α : Type} (l : List (String × α)) (k : String)
    (v : α) (h : (l.map Prod.fst).Nodup) :
    ((insertAL l k v).map Prod.fst).count k = 1 := by
  rw [keysAL_insertAL]
  by_cases h2 : k ∈ l.map Prod.fst
  · rw [if_pos h2]
    exact List.count_eq_one_of_mem h h2
  · rw [if_neg h2, List.count_append]
    rw [List.count_eq_zero.2 h2]
    simp

theorem storeChunk_valid_eq (st : NodeState) (r : StoreChunkRequest)
    (hv : StorageServiceImpl.validateRequest r = none)
    (hck : r.checksum = "" ∨ r.checksum = computeChecksum r.data) :
    StorageServiceImpl.StoreChunk st r =
      ⟨⟨.OK, ""⟩, ⟨true, "Chunk stored successfully"⟩,
       { st with
         disk := insertAL st.disk
           (StorageNode.getFullPath st
             (StorageServiceImpl.storeChunkKey r.filename r.chunk_number))
           r.data,
         fileMap := insertAL st.fileMap
           (StorageServiceImpl.storeChunkKey r.filename r.chunk_number)
           (StorageNode.getFullPath st
             (StorageServiceImpl.storeChunkKey r.filename r.chunk_number)) }⟩ := by
  unfold StorageServiceImpl.StoreChunk
  rw [hv]
  rw [if_neg (by rcases hck with h | h <;> simp [h])]
  rfl

/-- C1: on any node state, a successful `StoreChunk` of a non-empty payload
under a non-empty filename and chunk number ≥ 0 with the checksum computed
over the payload, followed by `RetrieveChunk` for the same filename and
chunk number, succeeds and returns exactly the payload, so the checksum of
the returned data equals the checksum of the payload. -/
theorem store_then_retrieve_checksum (st : NodeState) (f : String) (n : Int)
    (P : List Nat) (hP : P ≠ []) (hf : f ≠ "") (hn : 0 ≤ n) :
    (StorageServiceImpl.StoreChunk st ⟨f, n, P, computeChecksum P⟩).response.success
        = true ∧
    (StorageServiceImpl.RetrieveChunk
        (StorageServiceImpl.StoreChunk st ⟨f, n, P, computeChecksum P⟩).state
        ⟨f, n⟩).response.data = P ∧
    computeChecksum ((StorageServiceImpl.RetrieveChunk
        (StorageServiceImpl.StoreChunk st ⟨f, n, P, computeChecksum P⟩).state
        ⟨f, n⟩).response.data) = computeChecksum P := by
  have hv : StorageServiceImpl.validateRequest ⟨f, n, P, computeChecksum P⟩ =
      none := by
    simp [StorageServiceImpl.validateRequest, hf, hP, not_lt.2 hn]
  have hsc := storeChunk_valid_eq st ⟨f, n, P, computeChecksum P⟩ hv
    (Or.inr rfl)
  have hret : StorageServiceImpl.RetrieveChunk
      (StorageServiceImpl.StoreChunk st ⟨f, n, P, computeChecksum P⟩).state
      ⟨f, n⟩ =
      ⟨⟨.OK, ""⟩, ⟨P, computeChecksum P, true,
        "Chunk retrieved successfully"⟩⟩ := by
    rw [hsc]
    unfold StorageServiceImpl.RetrieveChunk
    rw [if_neg hf]
    have hkey : StorageServiceImpl.retrieveChunkKey f n =
        StorageServiceImpl.storeChunkKey f n := rfl
    have hdata : StorageNode.retrieveFile
        { st with
          disk := insertAL st.disk
            (StorageNode.getFullPath st (StorageServiceImpl.storeChunkKey f n))
            P,
          fileMap := insertAL st.fileMap
            (StorageServiceImpl.storeChunkKey f n)
            (StorageNode.getFullPath st
              (StorageServiceImpl.storeChunkKey f n)) }
        (StorageServiceImpl.retrieveChunkKey f n) = P := by
      rw [hkey]
      unfold StorageNode.retrieveFile
      simp only [lookupAL_insertAL_self]
    simp only [hdata]
    rw [if_neg hP]
  exact ⟨by rw [hsc], by rw [hret], by rw [hret]⟩

/-- C1 witness: storing the byte `[1]` under `"a"`, chunk 0, with its own
checksum and retrieving it returns `[1]`, whose checksum trivially matches. -/
theorem store_then_retrieve_checksum_witness :
    (StorageServiceImpl.StoreChunk (StorageNode.initNode "data" [])
        ⟨"a", 0, [1], computeChecksum [1]⟩).response.success = true ∧
    (StorageServiceImpl.RetrieveChunk
        (StorageServiceImpl.StoreChunk (StorageNode.initNode "data" [])
          ⟨"a", 0, [1], computeChecksum [1]⟩).state
        ⟨"a", 0⟩).response.data = [1] ∧
    computeChecksum ((StorageServiceImpl.RetrieveChunk
        (StorageServiceImpl.StoreChunk (StorageNode.initNode "data" [])
          ⟨"a", 0, [1], computeChecksum [1]⟩).state
        ⟨"a", 0⟩).response.data) = computeChecksum [1] :=
  store_then_retrieve_checksum (StorageNode.initNode "data" []) "a" 0 [1]
    (by decide) (by decide) (by decide)

/-- C7: storing the same valid chunk twice (checksum empty or matching)
succeeds the second time as well, is a state-level no-op (the second store
overwrites in place), and leaves exactly one stored value under the derived
key, equal to the data. -/
theorem storeChunk_idempotent (st : NodeState) (r : StoreChunkRequest)
    (hD : (st.disk.map Prod.fst).Nodup)
    (hv : StorageServiceImpl.validateRequest r = none)
    (hck : r.checksum = "" ∨ r.checksum = computeChecksum r.data) :
    (StorageServiceImpl.StoreChunk
        (StorageServiceImpl.StoreChunk st r).state r).response.success = true ∧
    (StorageServiceImpl.StoreChunk
        (StorageServiceImpl.StoreChunk st r).state r).state =
      (StorageServiceImpl.StoreChunk st r).state ∧
    lookupAL (StorageServiceImpl.StoreChunk
        (StorageServiceImpl.StoreChunk st r).state r).state.disk
      (StorageNode.getFullPath st
        (StorageServiceImpl.storeChunkKey r.filename r.chunk_number)) =
      some r.data ∧
    ((StorageServiceImpl.StoreChunk
        (StorageServiceImpl.StoreChunk st r).state r).state.disk.map
        Prod.fst).count
      (StorageNode.getFullPath st
        (StorageServiceImpl.storeChunkKey r.filename r.chunk_number)) = 1 := by
  have h1 := storeChunk_valid_eq st r hv hck
  have h2 := storeChunk_valid_eq (StorageServiceImpl.StoreChunk st r).state r
    hv hck
  rw [h1] at h2
  refine ⟨?_, ?_, ?_, ?_⟩
  · rw [h1, h2]
  · rw [h1, h2]
    simp [StorageNode.getFullPath, insertAL_insertAL_self]
  · rw [h1, h2]
    simp only [StorageNode.getFullPath, insertAL_insertAL_self]
    exact lookupAL_insertAL_self _ _ _
  · rw [h1, h2]
    simp only [StorageNode.getFullPath, insertAL_insertAL_self]
    exact count_keys_insertAL _ _ _ hD

/-- C7 witness: storing `[5]` under `"f"`, chunk 0, twice on a fresh node
succeeds, changes nothing the second time, and leaves one copy of `[5]`
under the derived key. -/
theorem storeChunk_idempotent_witness :
    (StorageServiceImpl.StoreChunk
        (StorageServiceImpl.StoreChunk (StorageNode.initNode "data" [])
          ⟨"f", 0, [5], ""⟩).state
        ⟨"f", 0, [5], ""⟩).response.success = true ∧
    (StorageServiceImpl.StoreChunk
        (StorageServiceImpl.StoreChunk (StorageNode.initNode "data" [])
          ⟨"f", 0, [5], ""⟩).state
        ⟨"f", 0, [5], ""⟩).state =
      (StorageServiceImpl.StoreChunk (StorageNode.initNode "data" [])
        ⟨"f", 0, [5], ""⟩).state ∧
    lookupAL (StorageServiceImpl.StoreChunk
        (StorageServiceImpl.StoreChunk (StorageNode.initNode "data" [])
          ⟨"f", 0, [5], ""⟩).state
        ⟨"f", 0, [5], ""⟩).state.disk
      (StorageNode.getFullPath (StorageNode.initNode "data" [])
        (StorageServiceImpl.storeChunkKey "f" 0)) = some [5] ∧
    ((StorageServiceImpl.StoreChunk
        (StorageServiceImpl.StoreChunk (StorageNode.initNode "data" [])
          ⟨"f", 0, [5], ""⟩).state
        ⟨"f", 0, [5], ""⟩).state.disk.map Prod.fst).count
      (StorageNode.getFullPath (StorageNode.initNode "data" [])
        (StorageServiceImpl.storeChunkKey "f" 0)) = 1 :=
  storeChunk_idempotent (StorageNode.initNode "data" []) ⟨"f", 0, [5], ""⟩
    (by simp [StorageNode.initNode]) (by rfl) (Or.inl rfl)

/-! ## Coordinator lemmas -/

theorem calculateDataPlacement_empty (st : MgrState) (f : String)
    (h : st.partitionMap = []) :
    FileSystemManager.calculateDataPlacement st f = ⟨[], []⟩ := by
  unfold FileSystemManager.calculateDataPlacement
  rw [h]

theorem tryNodes_absent (nodes : List (String × ClientHandle)) (f : String) :
    ∀ pre nid suff,
      (∀ m ∈ pre, ∃ node, lookupAL nodes m = some node ∧
        node.retrieve f = []) →
      lookupAL nodes nid = none →
      FileSystemManager.tryNodes nodes f (pre ++ nid :: suff) = none := by
  intro pre
  induction pre with
  | nil =>
      intro nid suff _ habs
      simp only [List.nil_append, FileSystemManager.tryNodes]
      rw [habs]
  | cons m pre' ih =>
      intro nid suff hpre habs
      obtain ⟨node, hlk, hret⟩ := hpre m (by simp)
      simp only [List.cons_append, FileSystemManager.tryNodes]
      rw [hlk]
      simp only [hret, if_pos rfl]
      exact ih nid suff (fun m' hm' => hpre m' (by simp [hm'])) habs

/-- C4: the coordinator's `writeFile` returns true exactly when the write
to the first primary placement node succeeds — the replication outcome
`replOk` never changes the returned value — and returns false when the
computed placement has no primary nodes, in particular on an empty cluster
(no nodes, partition map recomputed from them). -/
theorem writeFile_primary_decides (st : MgrState) (f : String) (d : List Nat)
    (replOk : Bool) :
    ((st.nodes = [] ∧
        st.partitionMap = FileSystemManager.updatePartitionMap st.nodes) →
      FileSystemManager.writeFile st f d replOk = some false) ∧
    ((FileSystemManager.calculateDataPlacement st f).primaryNodes = [] →
      FileSystemManager.writeFile st f d replOk = some false) ∧
    (∀ nid rest node,
      (FileSystemManager.calculateDataPlacement st f).primaryNodes =
        nid :: rest →
      lookupAL st.nodes nid = some node →
      FileSystemManager.writeFile st f d replOk = some (node.store f d)) := by
  have hempty :
      (FileSystemManager.calculateDataPlacement st f).primaryNodes = [] →
      FileSystemManager.writeFile st f d replOk = some false := by
    intro hpl
    unfold FileSystemManager.writeFile
    simp only [hpl]
  refine ⟨?_, hempty, ?_⟩
  · rintro ⟨hn, hp⟩
    apply hempty
    rw [hn] at hp
    rw [calculateDataPlacement_empty st f
      (by simpa [FileSystemManager.updatePartitionMap] using hp)]
  · intro nid rest node hpl hlk
    unfold FileSystemManager.writeFile
    simp only [hpl, hlk]
    cases hb : node.store f d <;> simp [hb]

/-- C4 witness (Scenario A): on an empty cluster the placement is empty and
`writeFile` returns false. -/
theorem writeFile_primary_decides_witness :
    FileSystemManager.writeFile ⟨[], [], 3⟩ "a.txt" [104, 105] true =
      some false :=
  (writeFile_primary_decides ⟨[], [], 3⟩ "a.txt" [104, 105] true).1 ⟨rfl, rfl⟩

/-- C9: in `writeFile` and `readFile` every placement node id is looked up
in `state.nodes` with `operator[]` and dereferenced with no presence check:
whenever the placement names an id absent from the map (and, for the read
path, every earlier traversed node is present but returns empty), the
dereference of the default-constructed null handle is reached — the
modelled undefined behaviour `none`. -/
theorem unguarded_placement_dereference (st : MgrState) (f : String)
    (d : List Nat) (replOk : Bool) :
    (∀ nid rest,
      (FileSystemManager.calculateDataPlacement st f).primaryNodes =
        nid :: rest →
      lookupAL st.nodes nid = none →
      FileSystemManager.writeFile st f d replOk = none) ∧
    (∀ pre nid suff,
      (FileSystemManager.calculateDataPlacement st f).primaryNodes =
        pre ++ nid :: suff →
      (∀ m ∈ pre, ∃ node, lookupAL st.nodes m = some node ∧
        node.retrieve f = []) →
      lookupAL st.nodes nid = none →
      FileSystemManager.readFile st f = none) := by
  constructor
  · intro nid rest hpl habs
    unfold FileSystemManager.writeFile
    simp only [hpl, habs]
  · intro pre nid suff hpl hpre habs
    unfold FileSystemManager.readFile
    rw [hpl]
    rw [tryNodes_absent st.nodes f pre nid suff hpre habs]

/-- C9 witness: a partition map naming node `"n1"` while the node map is
empty (as after a failover) drives both `writeFile` and `readFile` into the
null dereference. -/
theorem unguarded_placement_dereference_witness :
    FileSystemManager.writeFile ⟨[], ["n1"], 1⟩ "a.txt" [1] true = none ∧
    FileSystemManager.readFile ⟨[], ["n1"], 1⟩ "a.txt" = none :=
  ⟨(unguarded_placement_dereference ⟨[], ["n1"], 1⟩ "a.txt" [1] true).1
      "n1" [] (by decide) rfl,
   (unguarded_placement_dereference ⟨[], ["n1"], 1⟩ "a.txt" [1] true).2
      [] "n1" [] (by decide) (by simp) rfl⟩

/-! ## Client upload lemmas -/

theorem storeLoop_all_ok (send : Nat → Bool) (f : String) (d : List Nat) :
    ∀ r i, (∀ j, i ≤ j → j < i + r → send j = true) →
    ClientNode.storeLoop send f d i r =
      (true, (List.range' i r).map
        (fun j => RpcCall.storeChunkCall f j (ClientNode.chunkData d j))) := by
  intro r
  induction r with
  | zero => intro i _; rfl
  | succ r' ih =>
      intro i hok
      have h0 : send i = true := hok i (Nat.le_refl i) (by omega)
      have hrec := ih (i + 1) (fun j h1 h2 => hok j (by omega) (by omega))
      simp [ClientNode.storeLoop, h0, hrec, List.range']

theorem storeLoop_fail_at (send : Nat → Bool) (f : String) (d : List Nat) :
    ∀ r i j, i ≤ j → j < i + r →
    (∀ j', i ≤ j' → j' < j → send j' = true) → send j = false →
    ClientNode.storeLoop send f d i r =
      (false, (List.range' i (j - i + 1)).map
        (fun j' => RpcCall.storeChunkCall f j' (ClientNode.chunkData d j'))) := by
  intro r
  induction r with
  | zero => intro i j h1 h2; omega
  | succ r' ih =>
      intro i j hij hjr hok hfail
      by_cases hji : j = i
      · subst hji
        have : j - j + 1 = 1 := by omega
        rw [this]
        simp [ClientNode.storeLoop, hfail, List.range']
      · have h0 : send i = true := hok i (Nat.le_refl i) (by omega)
        have hrec := ih (i + 1) j (by omega) (by omega)
          (fun j' h1 h2 => hok j' (by omega) h2) hfail
        have harith : j - i + 1 = (j - (i + 1) + 1) + 1 := by omega
        rw [harith]
        simp [ClientNode.storeLoop, h0, hrec, List.range']

theorem storeLoop_only_stores (send : Nat → Bool) (f : String) (d : List Nat) :
    ∀ r i c, c ∈ (ClientNode.storeLoop send f d i r).2 →
      ∃ g n bytes, c = RpcCall.storeChunkCall g n bytes := by
  intro r
  induction r with
  | zero => intro i c hc; simp [ClientNode.storeLoop] at hc
  | succ r' ih =>
      intro i c hc
      cases h0 : send i with
      | false =>
          simp [ClientNode.storeLoop, h0] at hc
          exact ⟨f, i, ClientNode.chunkData d i, hc⟩
      | true =>
          rcases hrec : ClientNode.storeLoop send f d (i + 1) r' with ⟨ok, calls⟩
          simp [ClientNode.storeLoop, h0, hrec] at hc
          rcases hc with hc | hc
          · exact ⟨f, i, ClientNode.chunkData d i, hc⟩
          · exact ih (i + 1) c (by rw [hrec]; exact hc)

/-- C5: the client `storeFile` splits the data into
`(len + CHUNK_SIZE - 1) / CHUNK_SIZE = ceil(len / 64 MiB)` chunks: when
every `sendChunk` succeeds it issues exactly one store call per chunk,
numbered consecutively from 0 with the consecutive 64 MiB slices as
payloads, and returns true; when chunk `j` is the first to fail it returns
false immediately, having issued only calls 0..j; and the trace never
contains a delete call (no cleanup of already-stored chunks). -/
theorem clientStoreFile_chunking (send : Nat → Bool) (f : String)
    (d : List Nat) :
    (d.length ≤ ClientNode.CHUNK_SIZE * ClientNode.numChunks d.length ∧
     ClientNode.CHUNK_SIZE * ClientNode.numChunks d.length <
       d.length + ClientNode.CHUNK_SIZE) ∧
    ((∀ j, j < ClientNode.numChunks d.length → send j = true) →
      ClientNode.storeFile send f d =
        (true, (List.range' 0 (ClientNode.numChunks d.length)).map
          (fun j => RpcCall.storeChunkCall f j (ClientNode.chunkData d j)))) ∧
    (∀ j, j < ClientNode.numChunks d.length →
      (∀ j', j' < j → send j' = true) → send j = false →
      ClientNode.storeFile send f d =
        (false, (List.range' 0 (j + 1)).map
          (fun j' => RpcCall.storeChunkCall f j' (ClientNode.chunkData d j')))) ∧
    (∀ c ∈ (ClientNode.storeFile send f d).2,
      ∃ g n bytes, c = RpcCall.storeChunkCall g n bytes) := by
  refine ⟨?_, ?_, ?_, ?_⟩
  · unfold ClientNode.numChunks ClientNode.CHUNK_SIZE
    omega
  · intro hok
    exact storeLoop_all_ok send f d (ClientNode.numChunks d.length) 0
      (fun j h1 h2 => hok j (by omega))
  · intro j hj hok hfail
    have h := storeLoop_fail_at send f d (ClientNode.numChunks d.length) 0 j
      (Nat.zero_le j) (by omega) (fun j' h1 h2 => hok j' h2) hfail
    simpa using h
  · exact storeLoop_only_stores send f d (ClientNode.numChunks d.length) 0

/-- C5 witness: a three-byte file is one chunk; with a succeeding network
the client issues exactly the single store call for chunk 0 carrying the
whole payload and returns true. -/
theorem clientStoreFile_chunking_witness :
    ClientNode.storeFile (fun _ => true) "f" [1, 2, 3] =
      (true, [RpcCall.storeChunkCall "f" 0 [1, 2, 3]]) := by
  have h := (clientStoreFile_chunking (fun _ => true) "f" [1, 2, 3]).2.1
    (fun j hj => rfl)
  rw [h]
  decide

/-! ## Node-state invariant lemmas (traces) -/

theorem getFullPath_inj (st : NodeState) (f g : String)
    (h : StorageNode.getFullPath st f = StorageNode.getFullPath st g) :
    f = g := by
  unfold StorageNode.getFullPath at h
  have h2 := congrArg String.data h
  simp only [String.data_append] at h2
  exact String.ext (List.append_cancel_left h2)

theorem wf_initNode (basePath : String) (d0 : List (String × List Nat)) :
    StorageNode.wf (StorageNode.initNode basePath d0) :=
  ⟨by simp [StorageNode.initNode],
   fun g p h => by simp [StorageNode.initNode, lookupAL] at h⟩

theorem wf_storeFile (st : NodeState) (f : String) (c : List Nat)
    (h : StorageNode.wf st) : StorageNode.wf ((StorageNode.storeFile st f c).2) := by
  obtain ⟨hnodup, hentry⟩ := h
  refine ⟨nodup_keys_insertAL _ _ _ hnodup, ?_⟩
  intro g p hg
  by_cases hgf : g = f
  · subst hgf
    rw [show ((StorageNode.storeFile st g c).2).fileMap =
        insertAL st.fileMap g (StorageNode.getFullPath st g) from rfl,
      lookupAL_insertAL_self] at hg
    cases hg
    refine ⟨rfl, ?_⟩
    rw [show ((StorageNode.storeFile st g c).2).disk =
        insertAL st.disk (StorageNode.getFullPath st g) c from rfl,
      lookupAL_insertAL_self]
    rfl
  · rw [show ((StorageNode.storeFile st f c).2).fileMap =
        insertAL st.fileMap f (StorageNode.getFullPath st f) from rfl,
      lookupAL_insertAL_ne _ _ _ _ (fun he => hgf he.symm)] at hg
    obtain ⟨hp, hsome⟩ := hentry g p hg
    refine ⟨hp, ?_⟩
    rw [show ((StorageNode.storeFile st f c).2).disk =
        insertAL st.disk (StorageNode.getFullPath st f) c from rfl]
    by_cases hpp : StorageNode.getFullPath st f = p
    · rw [← hpp, lookupAL_insertAL_self]
      rfl
    · rw [lookupAL_insertAL_ne _ _ _ _ hpp]
      exact hsome

theorem wf_deleteFile (st : NodeState) (f : String)
    (h : StorageNode.wf st) : StorageNode.wf ((StorageNode.deleteFile st f).2) := by
  obtain ⟨hnodup, hentry⟩ := h
  cases hlk : lookupAL st.fileMap f with
  | none =>
      have : (StorageNode.deleteFile st f).2 = st := by
        simp [StorageNode.deleteFile, hlk]
      rw [this]
      exact ⟨hnodup, hentry⟩
  | some p =>
      cases hd : lookupAL st.disk p with
      | none =>
          have : (StorageNode.deleteFile st f).2 = st := by
            simp [StorageNode.deleteFile, hlk, hd]
          rw [this]
          exact ⟨hnodup, hentry⟩
      | some c =>
          have hst : (StorageNode.deleteFile st f).2 =
              { st with disk := eraseAL st.disk p,
                        fileMap := eraseAL st.fileMap f } := by
            simp [StorageNode.deleteFile, hlk, hd]
          rw [hst]
          refine ⟨nodup_keys_eraseAL _ _ hnodup, ?_⟩
          intro g q hg
          have hg2 : lookupAL (eraseAL st.fileMap f) g = some q := hg
          by_cases hgf : g = f
          · subst hgf
            rw [lookupAL_eraseAL_self _ _ hnodup] at hg2
            cases hg2
          · rw [lookupAL_eraseAL_ne _ _ _ (fun he => hgf he.symm)] at hg2
            obtain ⟨hq, hsome⟩ := hentry g q hg2
            have hp := (hentry f p hlk).1
            have hqp : p ≠ q := by
              intro he
              exact hgf (getFullPath_inj st g f (by rw [← hq, ← hp, he]))
            refine ⟨hq, ?_⟩
            show (lookupAL (eraseAL st.disk p) q).isSome = true
            rw [lookupAL_eraseAL_ne _ _ _ hqp]
            exact hsome

theorem wf_applyOp (st : NodeState) (op : NodeOp) (h : StorageNode.wf st) :
    StorageNode.wf (StorageNode.applyOp st op) := by
  cases op with
  | store g c => exact wf_storeFile st g c h
  | del g => exact wf_deleteFile st g h
  | retrieve g => exact h
  | list => exact h

theorem mem_keys_storeFile (st : NodeState) (f : String) (c : List Nat)
    (g : String) :
    g ∈ ((StorageNode.storeFile st f c).2).fileMap.map Prod.fst ↔
      g = f ∨ g ∈ st.fileMap.map Prod.fst :=
  mem_keys_insertAL st.fileMap f g (StorageNode.getFullPath st f)

theorem mem_keys_deleteFile (st : NodeState) (f : String) (g : String)
    (h : StorageNode.wf st) :
    g ∈ ((StorageNode.deleteFile st f).2).fileMap.map Prod.fst ↔
      (g ∈ st.fileMap.map Prod.fst ∧ g ≠ f) := by
  obtain ⟨hnodup, hentry⟩ := h
  cases hlk : lookupAL st.fileMap f with
  | none =>
      have hf : f ∉ st.fileMap.map Prod.fst := by
        rw [← lookupAL_isSome_iff_mem]
        simp [hlk]
      have : (StorageNode.deleteFile st f).2 = st := by
        simp [StorageNode.deleteFile, hlk]
      rw [this]
      constructor
      · intro hm
        exact ⟨hm, fun he => hf (he ▸ hm)⟩
      · exact And.left
  | some p =>
      cases hd : lookupAL st.disk p with
      | none =>
          exact absurd ((hentry f p hlk).2) (by simp [hd])
      | some c =>
          have hst : (StorageNode.deleteFile st f).2 =
              { st with disk := eraseAL st.disk p,
                        fileMap := eraseAL st.fileMap f } := by
            simp [StorageNode.deleteFile, hlk, hd]
          rw [hst]
          exact mem_keys_eraseAL st.fileMap f g hnodup

theorem mem_keys_runTrace (tr : List NodeOp) :
    ∀ st, StorageNode.wf st → ∀ f,
      (f ∈ (StorageNode.runTrace st tr).fileMap.map Prod.fst ↔
        StorageNode.keyAfter f
          (decide (f ∈ st.fileMap.map Prod.fst)) tr = true) := by
  induction tr with
  | nil => intro st _ f; simp [StorageNode.runTrace, StorageNode.keyAfter]
  | cons op rest ih =>
      intro st hwf f
      have hstep := ih (StorageNode.applyOp st op) (wf_applyOp st op hwf) f
      cases op with
      | store g c =>
          rw [show StorageNode.runTrace st (NodeOp.store g c :: rest) =
              StorageNode.runTrace (StorageNode.applyOp st (NodeOp.store g c))
                rest from rfl]
          rw [hstep]
          rw [show StorageNode.keyAfter f
              (decide (f ∈ st.fileMap.map Prod.fst))
              (NodeOp.store g c :: rest) =
            StorageNode.keyAfter f
              (if g = f then true else decide (f ∈ st.fileMap.map Prod.fst))
              rest from rfl]
          have hm : decide (f ∈ (StorageNode.applyOp st
                (NodeOp.store g c)).fileMap.map Prod.fst) =
              (if g = f then true
               else decide (f ∈ st.fileMap.map Prod.fst)) := by
            by_cases hgf : g = f
            · rw [if_pos hgf]
              simp only [decide_eq_true_eq]
              exact (mem_keys_storeFile st g c f).2 (Or.inl hgf.symm)
            · rw [if_neg hgf, decide_eq_decide]
              rw [show StorageNode.applyOp st (NodeOp.store g c) =
                  (StorageNode.storeFile st g c).2 from rfl]
              rw [mem_keys_storeFile st g c f]
              have hfg : ¬f = g := fun he => hgf he.symm
              simp [hfg]
          rw [hm]
      | del g =>
          rw [show StorageNode.runTrace st (NodeOp.del g :: rest) =
              StorageNode.runTrace (StorageNode.applyOp st (NodeOp.del g))
                rest from rfl]
          rw [hstep]
          rw [show StorageNode.keyAfter f
              (decide (f ∈ st.fileMap.map Prod.fst))
              (NodeOp.del g :: rest) =
            StorageNode.keyAfter f
              (if g = f then false else decide (f ∈ st.fileMap.map Prod.fst))
              rest from rfl]
          have hm : decide (f ∈ (StorageNode.applyOp st
                (NodeOp.del g)).fileMap.map Prod.fst) =
              (if g = f then false
               else decide (f ∈ st.fileMap.map Prod.fst)) := by
            by_cases hgf : g = f
            · rw [if_pos hgf]
              simp only [decide_eq_false_iff_not]
              rw [show StorageNode.applyOp st (NodeOp.del g) =
                  (StorageNode.deleteFile st g).2 from rfl]
              rw [mem_keys_deleteFile st g f ⟨hwf.1, hwf.2⟩]
              simp [hgf]
            · rw [if_neg hgf, decide_eq_decide]
              rw [show StorageNode.applyOp st (NodeOp.del g) =
                  (StorageNode.deleteFile st g).2 from rfl]
              rw [mem_keys_deleteFile st g f ⟨hwf.1, hwf.2⟩]
              have hfg : ¬f = g := fun he => hgf he.symm
              simp [hfg]
          rw [hm]
      | retrieve g => exact hstep
      | list => exact hstep

theorem keyAfter_append (f : String) (b : Bool) (xs ys : List NodeOp) :
    StorageNode.keyAfter f b (xs ++ ys) =
      StorageNode.keyAfter f (StorageNode.keyAfter f b xs) ys := by
  induction xs generalizing b with
  | nil => rfl
  | cons op rest ih => cases op <;> simp [StorageNode.keyAfter, ih]

theorem split_snoc {α : Type} (xs : List α) (op x : α) (pre post : List α)
    (h : pre ++ x :: post = xs ++ [op]) (hne : op ≠ x) :
    ∃ post2, xs = pre ++ x :: post2 ∧ post = post2 ++ [op] := by
  rcases List.eq_nil_or_concat post with hp | ⟨post2, last, hp⟩
  · subst hp
    exfalso
    have h2 : (pre ++ [x]).getLast? = (xs ++ [op]).getLast? := by
      rw [← h]
    rw [List.getLast?_concat, List.getLast?_concat] at h2
    exact hne (Option.some_injective _ h2).symm
  · subst hp
    have h2 : (pre ++ x :: post2) ++ [last] = xs ++ [op] := by
      simpa [List.append_assoc] using h
    obtain ⟨h3, h4⟩ := List.append_inj' h2 rfl
    have h5 : last = op := by
      injection h4 with h5
    exact ⟨post2, h3.symm, by rw [h5, List.concat_eq_append]⟩

theorem split_passthrough (f : String) (xs : List NodeOp) (op : NodeOp)
    (hop : ∀ c, op ≠ NodeOp.store f c) (hdel : op ≠ NodeOp.del f) :
    (∃ pre c post, xs ++ [op] = pre ++ NodeOp.store f c :: post ∧
        NodeOp.del f ∉ post) ↔
      (∃ pre c post, xs = pre ++ NodeOp.store f c :: post ∧
        NodeOp.del f ∉ post) := by
  constructor
  · rintro ⟨pre, c, post, hsplit, hpost⟩
    obtain ⟨post2, hxs, hpost2⟩ :=
      split_snoc xs op (NodeOp.store f c) pre post hsplit.symm (hop c)
    exact ⟨pre, c, post2, hxs,
      fun hm => hpost (hpost2 ▸ List.mem_append.2 (Or.inl hm))⟩
  · rintro ⟨pre, c, post, hsplit, hpost⟩
    refine ⟨pre, c, post ++ [op], by rw [hsplit]; simp, ?_⟩
    intro hm
    rcases List.mem_append.1 hm with hm | hm
    · exact hpost hm
    · exact hdel (List.mem_singleton.1 hm).symm

theorem keyAfter_false_iff (f : String) (tr : List NodeOp) :
    StorageNode.keyAfter f false tr = true ↔
      ∃ pre c post, tr = pre ++ NodeOp.store f c :: post ∧
        NodeOp.del f ∉ post := by
  induction tr using List.reverseRecOn with
  | nil => simp [StorageNode.keyAfter]
  | append_singleton xs op ih =>
      rw [keyAfter_append]
      cases op with
      | store g c =>
          by_cases hgf : g = f
          · subst hgf
            constructor
            · intro _
              exact ⟨xs, c, [], rfl, by simp⟩
            · intro _
              simp [StorageNode.keyAfter]
          · rw [show StorageNode.keyAfter f
                (StorageNode.keyAfter f false xs) [NodeOp.store g c] =
                (if g = f then true
                 else StorageNode.keyAfter f false xs) from rfl]
            rw [if_neg hgf, ih]
            exact (split_passthrough f xs (NodeOp.store g c)
              (fun c' => by simp [hgf]) (by simp)).symm
      | del g =>
          by_cases hgf : g = f
          · rw [show StorageNode.keyAfter f
                (StorageNode.keyAfter f false xs) [NodeOp.del g] =
                (if g = f then false
                 else StorageNode.keyAfter f false xs) from rfl]
            rw [if_pos hgf]
            constructor
            · intro h
              exact absurd h (by simp)
            · rintro ⟨pre, c', post, hsplit, hpost⟩
              obtain ⟨post2, _, hpost2⟩ := split_snoc xs (NodeOp.del g)
                (NodeOp.store f c') pre post hsplit.symm (by simp)
              exact absurd
                (hpost2 ▸ List.mem_append.2 (Or.inr (by simp [hgf]))) hpost
          · rw [show StorageNode.keyAfter f
                (StorageNode.keyAfter f false xs) [NodeOp.del g] =
                (if g = f then false
                 else StorageNode.keyAfter f false xs) from rfl]
            rw [if_neg hgf, ih]
            exact (split_passthrough f xs (NodeOp.del g)
              (fun c' => by simp) (by simp [hgf])).symm
      | retrieve g =>
          rw [show StorageNode.keyAfter f
              (StorageNode.keyAfter f false xs) [NodeOp.retrieve g] =
              StorageNode.keyAfter f false xs from rfl]
          rw [ih]
          exact (split_passthrough f xs (NodeOp.retrieve g)
            (fun c' => by simp) (by simp)).symm
      | list =>
          rw [show StorageNode.keyAfter f
              (StorageNode.keyAfter f false xs) [NodeOp.list] =
              StorageNode.keyAfter f false xs from rfl]
          rw [ih]
          exact (split_passthrough f xs NodeOp.list
            (fun c' => by simp) (by simp)).symm

/-- C10: starting from construction (empty map, arbitrary pre-existing
disk contents) and running any sequence of node operations: the `fileMap`
keys are exactly the filenames with a successful store and no later
successful delete (a delete of an absent name fails and changes nothing,
so this is equivalent to having a store with no later delete of that name
in the trace); `listFiles` returns precisely those keys; and every
filename outside them — in particular one present on disk but never stored
through this node — is invisible: `retrieveFile` returns empty,
`deleteFile` fails leaving the state unchanged, and `listFiles` omits it. -/
theorem node_fileMap_invariant (basePath : String)
    (d0 : List (String × List Nat)) (tr : List NodeOp) :
    (∀ f, f ∈ (StorageNode.runTrace (StorageNode.initNode basePath d0)
        tr).fileMap.map Prod.fst ↔
      ∃ pre c post, tr = pre ++ NodeOp.store f c :: post ∧
        NodeOp.del f ∉ post) ∧
    StorageNode.listFiles
        (StorageNode.runTrace (StorageNode.initNode basePath d0) tr) =
      (StorageNode.runTrace (StorageNode.initNode basePath d0)
        tr).fileMap.map Prod.fst ∧
    (∀ f, f ∉ (StorageNode.runTrace (StorageNode.initNode basePath d0)
        tr).fileMap.map Prod.fst →
      StorageNode.retrieveFile
          (StorageNode.runTrace (StorageNode.initNode basePath d0) tr) f =
        [] ∧
      StorageNode.deleteFile
          (StorageNode.runTrace (StorageNode.initNode basePath d0) tr) f =
        (false, StorageNode.runTrace (StorageNode.initNode basePath d0) tr) ∧
      f ∉ StorageNode.listFiles
        (StorageNode.runTrace (StorageNode.initNode basePath d0) tr)) := by
  refine ⟨?_, rfl, ?_⟩
  · intro f
    rw [mem_keys_runTrace tr _ (wf_initNode basePath d0) f]
    rw [show decide (f ∈ (StorageNode.initNode basePath
        d0).fileMap.map Prod.fst) = false by simp [StorageNode.initNode]]
    exact keyAfter_false_iff f tr
  · intro f hf
    have hlk : lookupAL (StorageNode.runTrace
        (StorageNode.initNode basePath d0) tr).fileMap f = none := by
      cases h : lookupAL (StorageNode.runTrace
          (StorageNode.initNode basePath d0) tr).fileMap f with
      | none => rfl
      | some p =>
          exact absurd ((lookupAL_isSome_iff_mem _ f).1 (by simp [h])) hf
    refine ⟨?_, ?_, hf⟩
    · unfold StorageNode.retrieveFile
      rw [hlk]
    · unfold StorageNode.deleteFile
      rw [hlk]

/-- C10 witness: with `"data/ghost"` already on disk before construction
and one store of `"a"`, the untracked name `"ghost"` is invisible to
retrieve, delete and list. -/
theorem node_fileMap_invariant_witness :
    StorageNode.retrieveFile
        (StorageNode.runTrace
          (StorageNode.initNode "data" [("data/ghost", [9])])
          [NodeOp.store "a" [1]]) "ghost" = [] ∧
    StorageNode.deleteFile
        (StorageNode.runTrace
          (StorageNode.initNode "data" [("data/ghost", [9])])
          [NodeOp.store "a" [1]]) "ghost" =
      (false, StorageNode.runTrace
        (StorageNode.initNode "data" [("data/ghost", [9])])
        [NodeOp.store "a" [1]]) ∧
    "ghost" ∉ StorageNode.listFiles
      (StorageNode.runTrace
        (StorageNode.initNode "data" [("data/ghost", [9])])
        [NodeOp.store "a" [1]]) :=
  (node_fileMap_invariant "data" [("data/ghost", [9])]
    [NodeOp.store "a" [1]]).2.2 "ghost" (by decide)

end DFS
